import Mathlib

/-!
Verification development for the QR-code generator `QR.py`
(SuryaKrishnaMoorthy21/easy_qr-code-generator).

The Python program is shallowly embedded below: pure helpers become Lean
functions, the PIL raster library is modelled by an explicit image heap
(so that allocation and in-place mutation are observable), and external
collaborators (font loading, text measurement, glyph rendering, file
saving, stdin) are modelled as oracle parameters.
-/

/-! ## Python string primitives used by `QR.py` -/

/-- ASCII whitespace recognised by Python's `str.strip()`. -/
def isPySpace (c : Char) : Bool :=
  c = ' ' || c = '\t' || c = '\n' || c = '\x0d' || c = '\x0b' || c = '\x0c'

/-- `str.strip()` on a character list: drop whitespace from both ends. -/
def pyStripChars (l : List Char) : List Char :=
  ((l.dropWhile isPySpace).reverse.dropWhile isPySpace).reverse

/-- Python `str.strip()` (default arguments). -/
def pyStrip (s : String) : String :=
  String.mk (pyStripChars s.data)

/-- Python `str.rfind(c)` on a character list: index of the rightmost
occurrence of `c`, or `-1` when absent. -/
def pyRfind (c : Char) : List Char → Int
  | [] => -1
  | a :: rest =>
    let r := pyRfind c rest
    if 0 ≤ r then r + 1 else if a = c then 0 else -1

/-- `os.path.splitext` (POSIX) on a character list, following CPython's
`genericpath._splitext`: split at the last dot, provided it lies after the
last path separator and some non-dot character of the basename precedes it. -/
def splitextChars (l : List Char) : List Char × List Char :=
  let sepIdx : Int := pyRfind '/' l
  let dotIdx : Int := pyRfind '.' l
  if sepIdx < dotIdx then
    if ((l.drop (sepIdx + 1).toNat).take (dotIdx - sepIdx - 1).toNat).any (fun a => a ≠ '.') then
      (l.take dotIdx.toNat, l.drop dotIdx.toNat)
    else (l, [])
  else (l, [])

/-- `os.path.splitext` on strings. -/
def splitext (p : String) : String × String :=
  ((splitextChars p.data).1.asString, (splitextChars p.data).2.asString)

/-- Python `str.lower()` (ASCII range, which covers the extension tests). -/
def pyLower (s : String) : String :=
  String.mk (s.data.map Char.toLower)

/-- The final path component of a character list: everything after the
last `/` (the whole list when there is no separator). -/
def pyBasenameChars (l : List Char) : List Char :=
  l.drop (pyRfind '/' l + 1).toNat

/-! ## Configuration constants of `QR.py` -/

/-- `OUT_FILE = "qrcode_with_caption.png"`. -/
def OUT_FILE : String := "qrcode_with_caption.png"

/-- `FONT_SIZE = 16`. -/
def FONT_SIZE : Nat := 16

/-- `FONT_PATHS`: the fixed candidate font list. -/
def FONT_PATHS : List String :=
  [ "/usr/share/fonts/truetype/dejavu/DejaVuSans-Bold.ttf"
  , "/usr/share/fonts/truetype/dejavu/DejaVuSans.ttf"
  , "/Library/Fonts/Arial.ttf"
  , "C:\\Windows\\Fonts\\arial.ttf" ]

/-- Extensions accepted by `ensure_png_filename`. -/
def RECOGNIZED_EXTS : List String :=
  [".png", ".jpg", ".jpeg", ".bmp", ".gif", ".webp"]

/-- `ensure_png_filename` from `QR.py`: strip the name, default to
`OUT_FILE` when empty, keep recognised extensions, otherwise replace the
extension with `.png`. -/
def ensure_png_filename (name : String) : String :=
  let name := pyStrip name
  if name = "" then OUT_FILE
  else
    let be := splitext name
    if pyLower be.2 ∈ RECOGNIZED_EXTS then name
    else be.1 ++ ".png"


/-! ## The PIL raster model

PIL images are mutable objects: `Image.new` allocates, `out.paste` and
`draw.text` mutate the receiver in place.  To make allocation and mutation
observable we model the library state as a heap of images addressed by
numeric handles. -/

/-- A raster image: dimensions plus a pixel map (colour values kept as the
colour strings the program passes to PIL). -/
structure ImageData where
  width : Nat
  height : Nat
  px : Nat → Nat → String

/-- The PIL library state: a heap of allocated images and the next fresh
handle. -/
structure PILState where
  heap : Nat → Option ImageData
  nextId : Nat

/-- A handle into the heap. -/
abbrev ImageId := Nat

/-- `Image.new("RGB", (w, h), color)`: allocate a fresh image filled with
`color`, returning its handle and the new state. -/
def imageNew (st : PILState) (w h : Nat) (color : String) : ImageId × PILState :=
  (st.nextId,
   { heap := fun i =>
       if i = st.nextId then some { width := w, height := h, px := fun _ _ => color }
       else st.heap i,
     nextId := st.nextId + 1 })

/-- The pixel-level effect of `dst.paste(src, (x, y))`: within the pasted
rectangle the destination shows the source's pixels. -/
def pasteData (dst src : ImageData) (x y : Nat) : ImageData :=
  { dst with px := fun i j =>
      if x ≤ i ∧ i < x + src.width ∧ y ≤ j ∧ j < y + src.height
      then src.px (i - x) (j - y) else dst.px i j }

/-- `dst.paste(src, (x, y))` on the heap: mutates the destination image in
place; the source is only read. -/
def imagePaste (st : PILState) (dst src : ImageId) (x y : Nat) : PILState :=
  match st.heap dst, st.heap src with
  | some d, some s =>
      { st with heap := fun i => if i = dst then some (pasteData d s x y) else st.heap i }
  | _, _ => st

/-- The pixel-level effect of `draw.text((x, y), text, fill, font)`: pixels
whose offset from `(x, y)` carries glyph ink (per the rendering oracle)
take the fill colour. -/
def drawTextData (ink : String → Nat → Nat → Bool) (d : ImageData)
    (text : String) (x y : Nat) (color : String) : ImageData :=
  { d with px := fun i j =>
      if x ≤ i ∧ y ≤ j ∧ ink text (i - x) (j - y) then color else d.px i j }

/-- `draw.text` on the heap: mutates the target image in place. -/
def imageDrawText (ink : String → Nat → Nat → Bool) (st : PILState) (dst : ImageId)
    (text : String) (x y : Nat) (color : String) : PILState :=
  match st.heap dst with
  | some d =>
      { st with heap := fun i => if i = dst then some (drawTextData ink d text x y color) else st.heap i }
  | none => st

/-! ## Font resolution (`find_font`) -/

/-- The font value a resolution yields: a loaded truetype font or PIL's
built-in default. -/
inductive FontHandle where
  | truetypeFont (path : String) (size : Nat)
  | defaultFont
deriving DecidableEq

/-- `ImageFont.load_default()`. -/
def load_default : FontHandle := .defaultFont

/-- Oracle for the filesystem/font-loading calls `find_font` makes; either
call may raise (modelled as `Except.error`). -/
structure FontOracle where
  path_exists : String → Except String Bool
  truetype : String → Nat → Except String FontHandle

/-- The candidate loop of `find_font`: for each path, `try` checking
existence and loading; any exception or a missing file falls through to
the next candidate. -/
def find_font_on (fs : FontOracle) (size : Nat) : List String → FontHandle
  | [] => load_default
  | p :: rest =>
    match fs.path_exists p with
    | .error _ => find_font_on fs size rest
    | .ok false => find_font_on fs size rest
    | .ok true =>
      match fs.truetype p size with
      | .ok f => f
      | .error _ => find_font_on fs size rest

/-- `find_font(size=FONT_SIZE)` from `QR.py`. -/
def find_font (fs : FontOracle) (size : Nat := FONT_SIZE) : FontHandle :=
  find_font_on fs size FONT_PATHS

/-! ## Caption composition (`add_caption_below`)

Text measurement (`measure_text`) and glyph rasterisation delegate to PIL,
external collaborators per the spec; they enter as oracles `measure`
(width/height of a string under a font) and `ink` (glyph coverage of a
string under a font). -/

/-- `add_caption_below(img, caption, padding=10, bg_color="white",
text_color="black")` from `QR.py`, over the PIL heap model.  Returns the
handle of the result image together with the resulting library state. -/
def add_caption_below (fs : FontOracle) (measure : String → FontHandle → Nat × Nat)
    (ink : FontHandle → String → Nat → Nat → Bool)
    (st : PILState) (img : ImageId) (caption : Option String)
    (padding : Nat := 10) (bg_color : String := "white") (text_color : String := "black") :
    ImageId × PILState :=
  match caption with
  | none => (img, st)
  | some c =>
    if c = "" then (img, st)
    else
      match st.heap img with
      | none => (img, st)
      | some imgD =>
        let font := find_font fs
        let m := measure c font
        let txt_w := m.1
        let txt_h := m.2
        let img_w := imgD.width
        let img_h := imgD.height
        let new_w := max img_w (txt_w + padding * 2)
        let new_h := img_h + txt_h + padding * 2
        let alloc := imageNew st new_w new_h bg_color
        let out := alloc.1
        let st1 := alloc.2
        let x_qr := (new_w - img_w) / 2
        let st2 := imagePaste st1 out img x_qr 0
        let x_txt := (new_w - txt_w) / 2
        let y_txt := img_h + padding
        let st3 := imageDrawText (ink font) st2 out c x_txt y_txt text_color
        (out, st3)

/-! ## The save fallback of `main` (lines 160–168) -/

/-- One call to `PIL.Image.save`: the filename and the explicit `format`
argument, if any. -/
structure SaveCall where
  filename : String
  format : Option String
deriving DecidableEq

/-- Outcome of the save block of `main`. -/
inductive SaveOutcome where
  | saved
  | savedFallback
  | exited (code : Nat) (msg : String)
deriving DecidableEq

/-- The save block of `main`: try `final_img.save(filename)`; on an
exception try `final_img.save(filename, format="PNG")`; if that also
raises, print `Save failed:` and `sys.exit(1)`.  The oracle `saveOp` maps
each save call to success or an exception message; the list of save calls
actually issued is returned alongside the outcome. -/
def run_save (saveOp : String → Option String → Except String Unit)
    (filename : String) : SaveOutcome × List SaveCall :=
  match saveOp filename none with
  | .ok _ => (.saved, [⟨filename, none⟩])
  | .error _ =>
    match saveOp filename (some "PNG") with
    | .ok _ => (.savedFallback, [⟨filename, none⟩, ⟨filename, some "PNG"⟩])
    | .error e2 =>
        (.exited 1 ("Save failed: " ++ e2), [⟨filename, none⟩, ⟨filename, some "PNG"⟩])

/-! ## The interactive prompt phase of `main` (lines 136–148) -/

/-- What an `input()` call produces: a line of text, or `EOFError` /
`KeyboardInterrupt` (end-of-input or interrupt signal). -/
inductive PromptResult where
  | line (s : String)
  | interrupted
deriving DecidableEq

/-- Outcome of the prompt phase of `main`.  Only the first `input()` is
wrapped in `try/except`; an interrupt at the later prompts propagates as
an uncaught exception (Python aborts with a traceback and a non-zero
status, printing no message of the program's own). -/
inductive PromptOutcome where
  | exited (code : Nat) (msg : String)
  | uncaught
  | proceed (text : String) (filename : String) (caption : Option String)
deriving DecidableEq

/-- The prompt phase of `main`: read the text to encode (cancellation here
is caught: print `Cancelled.`, exit 0; empty text: exit 1), then the
output filename (defaulted and normalised), then the optional caption. -/
def main_prompts (in1 in2 in3 : PromptResult) : PromptOutcome :=
  match in1 with
  | .interrupted => .exited 0 "Cancelled."
  | .line t =>
    let text := pyStrip t
    if text = "" then .exited 1 "No text entered. Exiting."
    else
      match in2 with
      | .interrupted => .uncaught
      | .line f =>
        let filename := if pyStrip f = "" then OUT_FILE else pyStrip f
        let filename := ensure_png_filename filename
        match in3 with
        | .interrupted => .uncaught
        | .line c =>
          let caption := if pyStrip c = "" then none else some (pyStrip c)
          .proceed text filename caption

/-! ## Concrete fixtures used to instantiate the theorems -/

/-- A filesystem on which none of the candidate font files exists. -/
def fsAbsent : FontOracle :=
  { path_exists := fun _ => .ok false
  , truetype := fun p s => .ok (.truetypeFont p s) }

/-- A filesystem on which every font probe raises. -/
def fsRaising : FontOracle :=
  { path_exists := fun _ => .error "probe failed"
  , truetype := fun _ _ => .error "load failed" }

/-- A measurement oracle reporting a 150×12 pixel caption. -/
def measure150 : String → FontHandle → Nat × Nat := fun _ _ => (150, 12)

/-- A rendering oracle with a single ink pixel at the text origin. -/
def inkDot : FontHandle → String → Nat → Nat → Bool :=
  fun _ _ dx dy => dx = 0 && dy = 0

/-- A 290×290 all-black QR image. -/
def img290 : ImageData := { width := 290, height := 290, px := fun _ _ => "black" }

/-- A library state holding `img290` at handle 0. -/
def st290 : PILState :=
  { heap := fun i => if i = 0 then some img290 else none, nextId := 1 }

/-- A save oracle on which every save call raises. -/
def saveFailBoth : String → Option String → Except String Unit :=
  fun _ _ => .error "disk full"

/-! ## Lemmas about the raster primitives -/

theorem imageNew_heap_self (st : PILState) (w h : Nat) (c : String) :
    (imageNew st w h c).2.heap st.nextId = some { width := w, height := h, px := fun _ _ => c } := by
  simp [imageNew]

theorem imageNew_heap_ne (st : PILState) (w h : Nat) (c : String) (i : Nat)
    (hi : i ≠ st.nextId) : (imageNew st w h c).2.heap i = st.heap i := by
  simp [imageNew, hi]

theorem imagePaste_heap_self (st : PILState) (dst src : ImageId) (x y : Nat)
    (d s : ImageData) (hd : st.heap dst = some d) (hs : st.heap src = some s) :
    (imagePaste st dst src x y).heap dst = some (pasteData d s x y) := by
  simp [imagePaste, hd, hs]

theorem imagePaste_heap_ne (st : PILState) (dst src : ImageId) (x y : Nat) (i : Nat)
    (hi : i ≠ dst) : (imagePaste st dst src x y).heap i = st.heap i := by
  unfold imagePaste
  cases st.heap dst <;> cases st.heap src <;> simp [hi]

theorem imagePaste_nextId (st : PILState) (dst src : ImageId) (x y : Nat) :
    (imagePaste st dst src x y).nextId = st.nextId := by
  unfold imagePaste
  cases st.heap dst <;> cases st.heap src <;> simp

theorem imageDrawText_heap_self (ink : String → Nat → Nat → Bool) (st : PILState)
    (dst : ImageId) (t : String) (x y : Nat) (c : String) (d : ImageData)
    (hd : st.heap dst = some d) :
    (imageDrawText ink st dst t x y c).heap dst = some (drawTextData ink d t x y c) := by
  simp [imageDrawText, hd]

theorem imageDrawText_heap_ne (ink : String → Nat → Nat → Bool) (st : PILState)
    (dst : ImageId) (t : String) (x y : Nat) (c : String) (i : Nat)
    (hi : i ≠ dst) : (imageDrawText ink st dst t x y c).heap i = st.heap i := by
  unfold imageDrawText
  cases st.heap dst <;> simp [hi]

theorem imageDrawText_nextId (ink : String → Nat → Nat → Bool) (st : PILState)
    (dst : ImageId) (t : String) (x y : Nat) (c : String) :
    (imageDrawText ink st dst t x y c).nextId = st.nextId := by
  unfold imageDrawText
  cases st.heap dst <;> simp

theorem pasteData_px_in (d s : ImageData) (x y i j : Nat)
    (hi : i < s.width) (hj : j < s.height) :
    (pasteData d s x y).px (x + i) (y + j) = s.px i j := by
  unfold pasteData
  simp only
  rw [if_pos]
  · congr 1 <;> omega
  · refine ⟨by omega, by omega, by omega, by omega⟩

theorem drawTextData_px_ink (ink : String → Nat → Nat → Bool) (d : ImageData)
    (t : String) (x y : Nat) (c : String) (dx dy : Nat) (h : ink t dx dy = true) :
    (drawTextData ink d t x y c).px (x + dx) (y + dy) = c := by
  unfold drawTextData
  simp only
  rw [if_pos]
  refine ⟨by omega, by omega, ?_⟩
  have h1 : x + dx - x = dx := by omega
  have h2 : y + dy - y = dy := by omega
  rw [h1, h2, h]

theorem drawTextData_px_above (ink : String → Nat → Nat → Bool) (d : ImageData)
    (t : String) (x y : Nat) (c : String) (i j : Nat) (hj : j < y) :
    (drawTextData ink d t x y c).px i j = d.px i j := by
  unfold drawTextData
  simp only
  rw [if_neg]
  intro hcond
  omega

/-! ## The effect of a successful caption composition -/

/-- What one successful `add_caption_below` call with a non-empty caption
does to the library state: it allocates exactly one fresh image (handle
`st.nextId`), leaves every other heap slot untouched, and the fresh image
is the background canvas with the source image pasted at the centred
offset and the caption ink drawn below. -/
theorem add_caption_below_run (fs : FontOracle) (measure : String → FontHandle → Nat × Nat)
    (ink : FontHandle → String → Nat → Nat → Bool) (st : PILState) (img : ImageId)
    (imgD : ImageData) (c : String) (padding : Nat) (bg tc : String)
    (himg : st.heap img = some imgD) (hfresh : st.heap st.nextId = none) (hc : c ≠ "") :
    (add_caption_below fs measure ink st img (some c) padding bg tc).1 = st.nextId ∧
    (add_caption_below fs measure ink st img (some c) padding bg tc).2.nextId = st.nextId + 1 ∧
    (∀ i, i ≠ st.nextId →
      (add_caption_below fs measure ink st img (some c) padding bg tc).2.heap i = st.heap i) ∧
    (add_caption_below fs measure ink st img (some c) padding bg tc).2.heap st.nextId =
      some (drawTextData (ink (find_font fs))
        (pasteData
          { width := max imgD.width ((measure c (find_font fs)).1 + padding * 2),
            height := imgD.height + (measure c (find_font fs)).2 + padding * 2,
            px := fun _ _ => bg }
          imgD ((max imgD.width ((measure c (find_font fs)).1 + padding * 2) - imgD.width) / 2) 0)
        c ((max imgD.width ((measure c (find_font fs)).1 + padding * 2) - (measure c (find_font fs)).1) / 2)
        (imgD.height + padding) tc) := by
  have hne : img ≠ st.nextId := by
    intro h
    rw [h, hfresh] at himg
    exact Option.noConfusion himg
  refine ⟨?_, ?_, ?_, ?_⟩
  · simp [add_caption_below, hc, himg, imageNew]
  · simp [add_caption_below, hc, himg, imageNew, imagePaste, imageDrawText, hne]
  · intro i hi
    simp [add_caption_below, hc, himg, imageNew, imagePaste, imageDrawText, hne, hi]
  · simp [add_caption_below, hc, himg, imageNew, imagePaste, imageDrawText, hne]

/-! ## Claim theorems -/

/-- C1: for every QR image and every non-empty caption string,
`add_caption_below` computes the new canvas width as
`max(qrImage.width, measured caption width + 2*padding)` and the new
canvas height as `qrImage.height + measured caption height + 2*padding`. -/
theorem C1_canvas_dimensions (fs : FontOracle) (measure : String → FontHandle → Nat × Nat)
    (ink : FontHandle → String → Nat → Nat → Bool) (st : PILState) (img : ImageId)
    (imgD : ImageData) (c : String) (padding : Nat) (bg tc : String)
    (himg : st.heap img = some imgD) (hfresh : st.heap st.nextId = none) (hc : c ≠ "") :
    ∃ outD : ImageData,
      (add_caption_below fs measure ink st img (some c) padding bg tc).2.heap
        (add_caption_below fs measure ink st img (some c) padding bg tc).1 = some outD ∧
      outD.width = max imgD.width ((measure c (find_font fs)).1 + 2 * padding) ∧
      outD.height = imgD.height + (measure c (find_font fs)).2 + 2 * padding := by
  obtain ⟨h1, -, -, h4⟩ :=
    add_caption_below_run fs measure ink st img imgD c padding bg tc himg hfresh hc
  rw [h1, h4]
  refine ⟨_, rfl, ?_, ?_⟩
  · show (max imgD.width ((measure c (find_font fs)).1 + padding * 2)) =
      max imgD.width ((measure c (find_font fs)).1 + 2 * padding)
    omega
  · show imgD.height + (measure c (find_font fs)).2 + padding * 2 =
      imgD.height + (measure c (find_font fs)).2 + 2 * padding
    omega

/-- Witness for C1 at a concrete 290×290 image and the caption `"scan me"`. -/
theorem C1_canvas_dimensions_witness :
    ∃ outD : ImageData,
      (add_caption_below fsAbsent measure150 inkDot st290 0 (some "scan me") 10 "white" "black").2.heap
        (add_caption_below fsAbsent measure150 inkDot st290 0 (some "scan me") 10 "white" "black").1 = some outD ∧
      outD.width = max img290.width ((measure150 "scan me" (find_font fsAbsent)).1 + 2 * 10) ∧
      outD.height = img290.height + (measure150 "scan me" (find_font fsAbsent)).2 + 2 * 10 :=
  C1_canvas_dimensions fsAbsent measure150 inkDot st290 0 img290 "scan me" 10 "white" "black"
    rfl rfl (by decide)

/-- C3: composing with a `None` caption or with the empty-string caption is
the identity: `add_caption_below` returns the very same image handle and
leaves the library state untouched (no allocation happens). -/
theorem C3_empty_caption_identity :
    ∀ (fs : FontOracle) (measure : String → FontHandle → Nat × Nat)
      (ink : FontHandle → String → Nat → Nat → Bool) (st : PILState) (img : ImageId)
      (padding : Nat) (bg tc : String),
      add_caption_below fs measure ink st img none padding bg tc = (img, st) ∧
      add_caption_below fs measure ink st img (some "") padding bg tc = (img, st) := by
  intro fs measure ink st img padding bg tc
  exact ⟨rfl, by simp [add_caption_below]⟩

/-- C9: with a non-empty caption, `add_caption_below` does not touch the
input image — its heap entry (dimensions and pixels) is exactly what it was
before the call — and the result is a freshly allocated image under a
handle that was unallocated before the call and distinct from the input. -/
theorem C9_input_image_preserved (fs : FontOracle) (measure : String → FontHandle → Nat × Nat)
    (ink : FontHandle → String → Nat → Nat → Bool) (st : PILState) (img : ImageId)
    (imgD : ImageData) (c : String) (padding : Nat) (bg tc : String)
    (himg : st.heap img = some imgD) (hfresh : st.heap st.nextId = none) (hc : c ≠ "") :
    (add_caption_below fs measure ink st img (some c) padding bg tc).2.heap img = some imgD ∧
    (add_caption_below fs measure ink st img (some c) padding bg tc).1 ≠ img ∧
    st.heap (add_caption_below fs measure ink st img (some c) padding bg tc).1 = none ∧
    ∃ outD : ImageData,
      (add_caption_below fs measure ink st img (some c) padding bg tc).2.heap
        (add_caption_below fs measure ink st img (some c) padding bg tc).1 = some outD := by
  have hne : img ≠ st.nextId := by
    intro h
    rw [h, hfresh] at himg
    exact Option.noConfusion himg
  obtain ⟨h1, -, h3, h4⟩ :=
    add_caption_below_run fs measure ink st img imgD c padding bg tc himg hfresh hc
  refine ⟨?_, ?_, ?_, ?_⟩
  · rw [h3 img hne, himg]
  · rw [h1]
    exact fun h => hne h.symm
  · rw [h1]
    exact hfresh
  · rw [h1, h4]
    exact ⟨_, rfl⟩

/-- Witness for C9 at a concrete 290×290 image and the caption `"scan me"`. -/
theorem C9_input_image_preserved_witness :
    (add_caption_below fsAbsent measure150 inkDot st290 0 (some "scan me") 10 "white" "black").2.heap 0 = some img290 ∧
    (add_caption_below fsAbsent measure150 inkDot st290 0 (some "scan me") 10 "white" "black").1 ≠ 0 ∧
    st290.heap (add_caption_below fsAbsent measure150 inkDot st290 0 (some "scan me") 10 "white" "black").1 = none ∧
    ∃ outD : ImageData,
      (add_caption_below fsAbsent measure150 inkDot st290 0 (some "scan me") 10 "white" "black").2.heap
        (add_caption_below fsAbsent measure150 inkDot st290 0 (some "scan me") 10 "white" "black").1 = some outD :=
  C9_input_image_preserved fsAbsent measure150 inkDot st290 0 img290 "scan me" 10 "white" "black"
    rfl rfl (by decide)

/-- C7: applying `add_caption_below` twice with the same non-empty caption
stacks the padding: the final height is the original image height plus
`2*(capH + 2*padding)` — no special case suppresses double composition. -/
theorem C7_double_composition (fs : FontOracle) (measure : String → FontHandle → Nat × Nat)
    (ink : FontHandle → String → Nat → Nat → Bool) (st : PILState) (img : ImageId)
    (imgD : ImageData) (c : String) (padding : Nat) (bg tc : String)
    (himg : st.heap img = some imgD) (hf1 : st.heap st.nextId = none)
    (hf2 : st.heap (st.nextId + 1) = none) (hc : c ≠ "") :
    ∃ outD : ImageData,
      (add_caption_below fs measure ink
          (add_caption_below fs measure ink st img (some c) padding bg tc).2
          (add_caption_below fs measure ink st img (some c) padding bg tc).1
          (some c) padding bg tc).2.heap
        (add_caption_below fs measure ink
            (add_caption_below fs measure ink st img (some c) padding bg tc).2
            (add_caption_below fs measure ink st img (some c) padding bg tc).1
            (some c) padding bg tc).1 = some outD ∧
      outD.height = imgD.height + 2 * ((measure c (find_font fs)).2 + 2 * padding) := by
  obtain ⟨h1, h2, h3, h4⟩ :=
    add_caption_below_run fs measure ink st img imgD c padding bg tc himg hf1 hc
  have himg2 := h4
  rw [← h1] at himg2
  have hfresh2 : (add_caption_below fs measure ink st img (some c) padding bg tc).2.heap
      (add_caption_below fs measure ink st img (some c) padding bg tc).2.nextId = none := by
    rw [h2, h3 (st.nextId + 1) (by omega)]
    exact hf2
  obtain ⟨g1, g2, g3, g4⟩ :=
    add_caption_below_run fs measure ink
      (add_caption_below fs measure ink st img (some c) padding bg tc).2
      (add_caption_below fs measure ink st img (some c) padding bg tc).1
      _ c padding bg tc himg2 hfresh2 hc
  rw [g1, g4]
  refine ⟨_, rfl, ?_⟩
  simp only [drawTextData, pasteData]
  omega

/-- Witness for C7 at a concrete 290×290 image and the caption `"scan me"`. -/
theorem C7_double_composition_witness :
    ∃ outD : ImageData,
      (add_caption_below fsAbsent measure150 inkDot
          (add_caption_below fsAbsent measure150 inkDot st290 0 (some "scan me") 10 "white" "black").2
          (add_caption_below fsAbsent measure150 inkDot st290 0 (some "scan me") 10 "white" "black").1
          (some "scan me") 10 "white" "black").2.heap
        (add_caption_below fsAbsent measure150 inkDot
            (add_caption_below fsAbsent measure150 inkDot st290 0 (some "scan me") 10 "white" "black").2
            (add_caption_below fsAbsent measure150 inkDot st290 0 (some "scan me") 10 "white" "black").1
            (some "scan me") 10 "white" "black").1 = some outD ∧
      outD.height = img290.height + 2 * ((measure150 "scan me" (find_font fsAbsent)).2 + 2 * 10) :=
  C7_double_composition fsAbsent measure150 inkDot st290 0 img290 "scan me" 10 "white" "black"
    rfl rfl rfl (by decide)

/-- C2: with a non-empty caption the QR image is pasted at
`x = (new_w - qr_w) / 2`, `y = 0` and the caption ink lands at
`x = (new_w - cap_w) / 2`, `y = qr_h + padding`; in particular for QR width
290, caption width 150 and padding 10 the new width is 290 and the caption
x-offset is 70. -/
theorem C2_centred_placement (fs : FontOracle) (measure : String → FontHandle → Nat × Nat)
    (ink : FontHandle → String → Nat → Nat → Bool) (st : PILState) (img : ImageId)
    (imgD : ImageData) (c : String) (padding : Nat) (bg tc : String)
    (himg : st.heap img = some imgD) (hfresh : st.heap st.nextId = none) (hc : c ≠ "") :
    (∃ outD : ImageData,
      (add_caption_below fs measure ink st img (some c) padding bg tc).2.heap
        (add_caption_below fs measure ink st img (some c) padding bg tc).1 = some outD ∧
      (∀ i j, i < imgD.width → j < imgD.height →
        outD.px ((max imgD.width ((measure c (find_font fs)).1 + padding * 2) - imgD.width) / 2 + i) j
          = imgD.px i j) ∧
      (∀ dx dy, ink (find_font fs) c dx dy = true →
        outD.px ((max imgD.width ((measure c (find_font fs)).1 + padding * 2)
              - (measure c (find_font fs)).1) / 2 + dx)
          (imgD.height + padding + dy) = tc)) ∧
    ((add_caption_below fsAbsent measure150 inkDot st290 0 (some "scan me") 10 "white" "black").2.heap 1).map
        (fun d => (d.width, d.px 70 300)) = some (290, "black") := by
  obtain ⟨h1, -, -, h4⟩ :=
    add_caption_below_run fs measure ink st img imgD c padding bg tc himg hfresh hc
  constructor
  · rw [h1, h4]
    refine ⟨_, rfl, ?_, ?_⟩
    · intro i j hi hj
      rw [drawTextData_px_above _ _ _ _ _ _ _ _ (show j < imgD.height + padding by omega)]
      conv_lhs => rw [← Nat.zero_add j]
      exact pasteData_px_in _ _ _ _ _ _ hi hj
    · intro dx dy hink
      exact drawTextData_px_ink _ _ _ _ _ _ _ _ hink
  · decide

/-- Witness for C2 at a concrete 290×290 image and the caption `"scan me"`. -/
theorem C2_centred_placement_witness :
    (∃ outD : ImageData,
      (add_caption_below fsAbsent measure150 inkDot st290 0 (some "scan me") 10 "white" "black").2.heap
        (add_caption_below fsAbsent measure150 inkDot st290 0 (some "scan me") 10 "white" "black").1 = some outD ∧
      (∀ i j, i < img290.width → j < img290.height →
        outD.px ((max img290.width ((measure150 "scan me" (find_font fsAbsent)).1 + 10 * 2) - img290.width) / 2 + i) j
          = img290.px i j) ∧
      (∀ dx dy, inkDot (find_font fsAbsent) "scan me" dx dy = true →
        outD.px ((max img290.width ((measure150 "scan me" (find_font fsAbsent)).1 + 10 * 2)
              - (measure150 "scan me" (find_font fsAbsent)).1) / 2 + dx)
          (img290.height + 10 + dy) = "black")) ∧
    ((add_caption_below fsAbsent measure150 inkDot st290 0 (some "scan me") 10 "white" "black").2.heap 1).map
        (fun d => (d.width, d.px 70 300)) = some (290, "black") :=
  C2_centred_placement fsAbsent measure150 inkDot st290 0 img290 "scan me" 10 "white" "black"
    rfl rfl (by decide)

/-- Helper: when every candidate path is absent, raises on probing, or
raises on loading, the candidate loop returns the default font. -/
theorem find_font_on_all_fail (fs : FontOracle) (size : Nat) :
    ∀ ps : List String,
      (∀ p ∈ ps, fs.path_exists p = .ok false ∨ (∃ e, fs.path_exists p = .error e) ∨
        (∃ e, fs.truetype p size = .error e)) →
      find_font_on fs size ps = load_default
  | [], _ => rfl
  | p :: rest, h => by
    have hp := h p (by simp)
    have ih := find_font_on_all_fail fs size rest (fun q hq => h q (by simp [hq]))
    rcases hp with hp | ⟨e, hp⟩ | ⟨e, hp⟩
    · simp [find_font_on, hp, ih]
    · simp [find_font_on, hp, ih]
    · cases hex : fs.path_exists p with
      | error e2 => simp [find_font_on, hex, ih]
      | ok b =>
        cases b with
        | false => simp [find_font_on, hex, ih]
        | true => simp [find_font_on, hex, hp, ih]

/-- C8: font resolution never raises — a candidate whose existence check or
load raises (or which is simply absent) is silently skipped, and when every
candidate fails or is absent `find_font` returns the built-in default. -/
theorem C8_find_font_never_fails :
    (∀ (fs : FontOracle) (size : Nat),
      (∀ p ∈ FONT_PATHS,
        fs.path_exists p = .ok false ∨ (∃ e, fs.path_exists p = .error e) ∨
          (∃ e, fs.truetype p size = .error e)) →
      find_font fs size = load_default) ∧
    (∀ (fs : FontOracle) (size : Nat) (p : String) (rest : List String),
      (fs.path_exists p = .ok false ∨ (∃ e, fs.path_exists p = .error e) ∨
        (∃ e, fs.truetype p size = .error e)) →
      find_font_on fs size (p :: rest) = find_font_on fs size rest) := by
  constructor
  · intro fs size h
    exact find_font_on_all_fail fs size FONT_PATHS h
  · intro fs size p rest hp
    rcases hp with hp | ⟨e, hp⟩ | ⟨e, hp⟩
    · simp [find_font_on, hp]
    · simp [find_font_on, hp]
    · cases hex : fs.path_exists p with
      | error e2 => simp [find_font_on, hex]
      | ok b =>
        cases b with
        | false => simp [find_font_on, hex]
        | true => simp [find_font_on, hex, hp]

/-- Witness for C8: on a filesystem where every probe raises, and on one
where every file is absent, resolution yields the default font. -/
theorem C8_find_font_never_fails_witness :
    find_font fsRaising 16 = load_default ∧ find_font fsAbsent 16 = load_default :=
  ⟨C8_find_font_never_fails.1 fsRaising 16 (fun _ _ => Or.inr (Or.inl ⟨"probe failed", rfl⟩)),
   C8_find_font_never_fails.1 fsAbsent 16 (fun _ _ => Or.inl rfl)⟩

/-- C5: when the primary save raises, a second save is attempted with the
same filename and an explicit PNG format override, and the run ends in
`sys.exit(1)` with a reported error message exactly when that second
attempt also fails. -/
theorem C5_save_fallback (saveOp : String → Option String → Except String Unit)
    (filename : String) (e : String) (h : saveOp filename none = .error e) :
    (run_save saveOp filename).2 = [⟨filename, none⟩, ⟨filename, some "PNG"⟩] ∧
    (∀ e2, saveOp filename (some "PNG") = .error e2 →
      (run_save saveOp filename).1 = .exited 1 ("Save failed: " ++ e2)) ∧
    ((∃ e2, saveOp filename (some "PNG") = .error e2) ↔
      ∃ msg, (run_save saveOp filename).1 = .exited 1 msg) := by
  cases h2 : saveOp filename (some "PNG") with
  | ok u => simp [run_save, h, h2]
  | error e2 =>
    refine ⟨by simp [run_save, h, h2], ?_, ?_⟩
    · intro e2' he2
      cases he2
      simp [run_save, h, h2]
    · constructor
      · intro _
        exact ⟨"Save failed: " ++ e2, by simp [run_save, h, h2]⟩
      · intro _
        exact ⟨e2, rfl⟩

/-- Witness for C5: a save oracle on which both attempts raise. -/
theorem C5_save_fallback_witness :
    (run_save saveFailBoth "out.png").2 = [⟨"out.png", none⟩, ⟨"out.png", some "PNG"⟩] ∧
    (∀ e2, saveFailBoth "out.png" (some "PNG") = .error e2 →
      (run_save saveFailBoth "out.png").1 = .exited 1 ("Save failed: " ++ e2)) ∧
    ((∃ e2, saveFailBoth "out.png" (some "PNG") = .error e2) ↔
      ∃ msg, (run_save saveFailBoth "out.png").1 = .exited 1 msg) :=
  C5_save_fallback saveFailBoth "out.png" "disk full" rfl

/-- C6 counterexample: an interrupt at the second (filename) prompt does
not produce the cancelled/exit-0 outcome the claim promises for "any of
the interactive prompts" — the exception propagates uncaught, because only
the first `input()` is wrapped in `try/except`. -/
theorem C6_counterexample :
    main_prompts (.line "hello") .interrupted (.line "") = .uncaught ∧
    PromptOutcome.uncaught ≠ .exited 0 "Cancelled." := by
  constructor
  · decide
  · decide

/-- C6 (amended): end-of-input or an interrupt at the FIRST prompt prints
`Cancelled.` and exits 0, and empty text at that prompt exits 1; at the
second or third prompt the interrupt propagates uncaught instead. -/
theorem C6_cancellation_amended :
    (∀ i2 i3, main_prompts .interrupted i2 i3 = .exited 0 "Cancelled.") ∧
    (∀ t i2 i3, pyStrip t = "" →
      main_prompts (.line t) i2 i3 = .exited 1 "No text entered. Exiting.") ∧
    (∀ t i3, pyStrip t ≠ "" → main_prompts (.line t) .interrupted i3 = .uncaught) ∧
    (∀ t f, pyStrip t ≠ "" → main_prompts (.line t) (.line f) .interrupted = .uncaught) := by
  refine ⟨fun i2 i3 => rfl, ?_, ?_, ?_⟩
  · intro t i2 i3 h
    simp [main_prompts, h]
  · intro t i3 h
    simp [main_prompts, h]
  · intro t f h
    simp [main_prompts, h]

/-- Witness for C6 (amended) at concrete prompt transcripts. -/
theorem C6_cancellation_witness :
    main_prompts .interrupted (.line "a") (.line "b") = .exited 0 "Cancelled." ∧
    main_prompts (.line " ") (.line "a") (.line "b") = .exited 1 "No text entered. Exiting." ∧
    main_prompts (.line "hi") .interrupted (.line "b") = .uncaught ∧
    main_prompts (.line "hi") (.line "out") .interrupted = .uncaught :=
  ⟨C6_cancellation_amended.1 _ _,
   C6_cancellation_amended.2.1 " " _ _ (by decide),
   C6_cancellation_amended.2.2.1 "hi" _ (by decide),
   C6_cancellation_amended.2.2.2 "hi" "out" (by decide)⟩

/-- C4 counterexample: `" out.JPG"` has a recognised extension (`.JPG`,
compared case-insensitively), so the claim demands it pass through
unchanged; the code strips the leading whitespace instead. -/
theorem C4_counterexample :
    pyLower (splitext " out.JPG").2 ∈ RECOGNIZED_EXTS ∧
    ensure_png_filename " out.JPG" = "out.JPG" ∧
    "out.JPG" ≠ " out.JPG" := by
  refine ⟨by decide, by decide, by decide⟩

/-- C4 (amended): for every non-empty filename already free of
leading/trailing whitespace, `ensure_png_filename` leaves the name
unchanged when its extension is recognised case-insensitively, and
otherwise replaces the extension with `.png`; in particular `"out"` maps
to `"out.png"`, `"out.JPG"` is unchanged and `"out.txt"` maps to
`"out.png"`. -/
theorem C4_normalization_amended (s : String) (hs : pyStrip s = s) (hne : s ≠ "") :
    (pyLower (splitext s).2 ∈ RECOGNIZED_EXTS → ensure_png_filename s = s) ∧
    (pyLower (splitext s).2 ∉ RECOGNIZED_EXTS → ensure_png_filename s = (splitext s).1 ++ ".png") ∧
    ensure_png_filename "out" = "out.png" ∧
    ensure_png_filename "out.JPG" = "out.JPG" ∧
    ensure_png_filename "out.txt" = "out.png" := by
  refine ⟨?_, ?_, by decide, by decide, by decide⟩
  · intro hrec
    simp [ensure_png_filename, hs, hne, hrec]
  · intro hrec
    simp [ensure_png_filename, hs, hne, hrec]

/-- Witness for C4 (amended): a recognised and an unrecognised extension. -/
theorem C4_normalization_witness :
    ensure_png_filename "photo.Webp" = "photo.Webp" ∧
    ensure_png_filename "notes.md" = "notes" ++ ".png" :=
  ⟨(C4_normalization_amended "photo.Webp" (by decide) (by decide)).1 (by decide),
   (C4_normalization_amended "notes.md" (by decide) (by decide)).2.1 (by decide)⟩

/-! ## Auxiliary facts about `pyRfind` and `pyStripChars` (for C10) -/

theorem pyRfind_neg_one_le (c : Char) (l : List Char) : -1 ≤ pyRfind c l := by
  induction l with
  | nil => simp [pyRfind]
  | cons a rest ih =>
    simp only [pyRfind]
    split_ifs <;> omega

theorem pyRfind_lt_length (c : Char) (l : List Char) : pyRfind c l < (l.length : Int) := by
  induction l with
  | nil => simp [pyRfind]
  | cons a rest ih =>
    simp only [pyRfind, List.length_cons]
    split_ifs <;> push_cast <;> omega

theorem pyRfind_cons (c a : Char) (rest : List Char) :
    pyRfind c (a :: rest) =
      if 0 ≤ pyRfind c rest then pyRfind c rest + 1 else if a = c then 0 else -1 := rfl

theorem pyRfind_append (c : Char) (xs ys : List Char) :
    pyRfind c (xs ++ ys) =
      if 0 ≤ pyRfind c ys then (xs.length : Int) + pyRfind c ys else pyRfind c xs := by
  induction xs with
  | nil =>
    have hys := pyRfind_neg_one_le c ys
    simp only [List.nil_append, List.length_nil]
    split_ifs with h0
    · omega
    · simp only [pyRfind]
      omega
  | cons a xs ih =>
    have hys := pyRfind_neg_one_le c ys
    have hxs := pyRfind_neg_one_le c xs
    rw [List.cons_append, pyRfind_cons, ih, pyRfind_cons, List.length_cons]
    by_cases h0 : 0 ≤ pyRfind c ys
    · simp only [if_pos h0]
      rw [if_pos (show (0 : Int) ≤ (xs.length : Int) + pyRfind c ys by omega)]
      push_cast
      ring
    · simp only [if_neg h0]

theorem pyRfind_take (c : Char) (l : List Char) (k : Nat) (hk : k ≤ l.length)
    (h : pyRfind c l < (k : Int)) : pyRfind c (l.take k) = pyRfind c l := by
  have happ := pyRfind_append c (l.take k) (l.drop k)
  rw [List.take_append_drop] at happ
  by_cases h0 : 0 ≤ pyRfind c (l.drop k)
  · exfalso
    rw [if_pos h0] at happ
    have hlen : ((l.take k).length : Int) = k := by
      simp [List.length_take]
      omega
    omega
  · rw [if_neg h0] at happ
    exact happ.symm

theorem pyStripChars_def (l : List Char) :
    pyStripChars l = List.rdropWhile isPySpace (List.dropWhile isPySpace l) := rfl

/-- When stripping is a no-op, dropping whitespace from either single end
is a no-op as well. -/
theorem pyStripChars_parts {l : List Char} (hfix : pyStripChars l = l) :
    List.dropWhile isPySpace l = l ∧ List.rdropWhile isPySpace l = l := by
  have hpre : pyStripChars l <+: List.dropWhile isPySpace l := by
    rw [pyStripChars_def]
    exact List.rdropWhile_prefix _ _
  rw [hfix] at hpre
  have hsuf : List.dropWhile isPySpace l <:+ l := List.dropWhile_suffix _
  have h1 : List.dropWhile isPySpace l = l := hsuf.eq_of_length_le hpre.length_le
  refine ⟨h1, ?_⟩
  have h2 : pyStripChars l = List.rdropWhile isPySpace l := by
    rw [pyStripChars_def, h1]
  rw [← h2]
  exact hfix

theorem pyStripChars_eq_self {l : List Char} (h1 : List.dropWhile isPySpace l = l)
    (h2 : List.rdropWhile isPySpace l = l) : pyStripChars l = l := by
  rw [pyStripChars_def, h1, h2]

/-- A prefix of a list whose leading whitespace is already gone has no
leading whitespace either. -/
theorem dropWhile_eq_self_of_prefix {p : Char → Bool} {m l : List Char}
    (hp : m <+: l) (hl : List.dropWhile p l = l) : List.dropWhile p m = m := by
  cases m with
  | nil => rfl
  | cons c t =>
    obtain ⟨r, hr⟩ := hp
    by_cases hpc : p c = true
    · exfalso
      rw [← hr, List.cons_append, List.dropWhile_cons, if_pos hpc] at hl
      have hle := (List.dropWhile_suffix (l := t ++ r) p).length_le
      rw [hl] at hle
      simp at hle
    · rw [List.dropWhile_cons, if_neg hpc]

theorem pyStripChars_idem (l : List Char) :
    pyStripChars (pyStripChars l) = pyStripChars l := by
  apply pyStripChars_eq_self
  · refine dropWhile_eq_self_of_prefix (l := List.dropWhile isPySpace l) ?_ ?_
    · rw [pyStripChars_def]
      exact List.rdropWhile_prefix _ _
    · exact List.dropWhile_idempotent _ _
  · rw [pyStripChars_def]
    exact List.rdropWhile_idempotent _ _

theorem pyStrip_idem (s : String) : pyStrip (pyStrip s) = pyStrip s := by
  show String.mk (pyStripChars (pyStripChars s.data)) = String.mk (pyStripChars s.data)
  rw [pyStripChars_idem]

/-- The first character of a strip-fixed-point list is not whitespace. -/
theorem strip_fix_head {c : Char} {t : List Char} (hfix : pyStripChars (c :: t) = c :: t) :
    isPySpace c = false := by
  by_cases hpc : isPySpace c = true
  · exfalso
    have h1 := (pyStripChars_parts hfix).1
    rw [List.dropWhile_cons, if_pos hpc] at h1
    have hle := (List.dropWhile_suffix (l := t) isPySpace).length_le
    rw [h1] at hle
    simp at hle
  · simpa using hpc

/-- The last character of a strip-fixed-point list is not whitespace. -/
theorem strip_fix_last {l : List Char} (hfix : pyStripChars l = l) (h : l ≠ []) :
    isPySpace (l.getLast h) = false := by
  have h2 := (pyStripChars_parts hfix).2
  have := List.rdropWhile_eq_self_iff.mp h2 h
  simpa using this

/-! ## Auxiliary facts about `splitextChars` (for C10) -/

theorem splitextChars_fst_prefix (l : List Char) : (splitextChars l).1 <+: l := by
  simp only [splitextChars]
  split_ifs <;> simp [List.take_prefix]

/-- Appending `.png` to a base whose final path component holds a non-dot
character splits back into that base and the `.png` extension. -/
theorem splitextChars_append_png (b : List Char)
    (hbn : (pyBasenameChars b).any (fun a => a ≠ '.') = true) :
    splitextChars (b ++ ['.', 'p', 'n', 'g']) = (b, ['.', 'p', 'n', 'g']) := by
  have hge : (-1 : Int) ≤ pyRfind '/' b := pyRfind_neg_one_le _ _
  have hlt : pyRfind '/' b < (b.length : Int) := pyRfind_lt_length _ _
  have hdot : pyRfind '.' (b ++ ['.', 'p', 'n', 'g']) = (b.length : Int) := by
    rw [pyRfind_append]
    rw [if_pos (show (0 : Int) ≤ pyRfind '.' ['.', 'p', 'n', 'g'] by decide)]
    rw [show pyRfind '.' ['.', 'p', 'n', 'g'] = 0 from by decide]
    ring
  have hsep : pyRfind '/' (b ++ ['.', 'p', 'n', 'g']) = pyRfind '/' b := by
    rw [pyRfind_append]
    rw [if_neg (show ¬ (0 : Int) ≤ pyRfind '/' ['.', 'p', 'n', 'g'] by decide)]
  have hn : (pyRfind '/' b + 1).toNat ≤ b.length := by omega
  have hslice : ((b ++ ['.', 'p', 'n', 'g']).drop (pyRfind '/' b + 1).toNat).take
      ((b.length : Int) - pyRfind '/' b - 1).toNat = pyBasenameChars b := by
    rw [List.drop_append_of_le_length hn]
    have hlen : (b.drop (pyRfind '/' b + 1).toNat).length
        = ((b.length : Int) - pyRfind '/' b - 1).toNat := by
      rw [List.length_drop]
      omega
    exact List.take_left' hlen
  simp only [splitextChars]
  rw [hdot, hsep, if_pos hlt, hslice, if_pos hbn]
  rw [show ((b.length : Int)).toNat = b.length from by omega]
  rw [List.take_left, List.drop_left]

/-- The base returned by `splitextChars` inherits the property that the
final path component holds a non-dot character. -/
theorem splitextChars_fst_basename_any (l : List Char)
    (hl : (pyBasenameChars l).any (fun a => a ≠ '.') = true) :
    (pyBasenameChars (splitextChars l).1).any (fun a => a ≠ '.') = true := by
  have hsge : (-1 : Int) ≤ pyRfind '/' l := pyRfind_neg_one_le _ _
  have hdlt : pyRfind '.' l < (l.length : Int) := pyRfind_lt_length _ _
  simp only [splitextChars]
  split_ifs with h1 h2
  · have hd0 : (0 : Int) ≤ pyRfind '.' l := by omega
    have htk : (pyRfind '.' l).toNat ≤ l.length := by omega
    have hrt : pyRfind '/' (l.take (pyRfind '.' l).toNat) = pyRfind '/' l := by
      apply pyRfind_take _ _ _ htk
      omega
    show (pyBasenameChars (l.take (pyRfind '.' l).toNat)).any (fun a => a ≠ '.') = true
    unfold pyBasenameChars
    rw [hrt, List.drop_take]
    rw [show (pyRfind '.' l).toNat - (pyRfind '/' l + 1).toNat
        = (pyRfind '.' l - pyRfind '/' l - 1).toNat from by omega]
    exact h2
  · exact hl
  · exact hl

/-- Core of the amended C10: when the stripped input's final path
component holds a non-dot character, the `base ++ ".png"` result of
`ensure_png_filename` is a fixed point of `ensure_png_filename`. -/
theorem ensure_append_png_fix (n : String) (hfix : pyStrip n = n)
    (hbn : (pyBasenameChars n.data).any (fun a => a ≠ '.') = true) :
    ensure_png_filename ((splitext n).1 ++ ".png") = (splitext n).1 ++ ".png" := by
  have hfixd : pyStripChars n.data = n.data := congrArg String.data hfix
  have hbpre : (splitextChars n.data).1 <+: n.data := splitextChars_fst_prefix n.data
  have hbn2 : (pyBasenameChars (splitextChars n.data).1).any (fun a => a ≠ '.') = true :=
    splitextChars_fst_basename_any n.data hbn
  have hrdata : ((splitext n).1 ++ (".png" : String)).data
      = (splitextChars n.data).1 ++ ['.', 'p', 'n', 'g'] := rfl
  have hstrip_r : pyStrip ((splitext n).1 ++ ".png") = (splitext n).1 ++ ".png" := by
    apply String.ext
    show pyStripChars ((splitext n).1 ++ (".png" : String)).data
      = ((splitext n).1 ++ (".png" : String)).data
    rw [hrdata]
    apply pyStripChars_eq_self
    · cases hb : (splitextChars n.data).1 with
      | nil => decide
      | cons c t =>
        rw [hb] at hbpre
        obtain ⟨r, hr⟩ := hbpre
        have hr' : n.data = c :: (t ++ r) := by
          rw [← hr, List.cons_append]
        have hfixc := hfixd
        rw [hr'] at hfixc
        have hc : isPySpace c = false := strip_fix_head hfixc
        rw [List.cons_append, List.dropWhile_cons, if_neg (by simp [hc])]
    · rw [show (splitextChars n.data).1 ++ ['.', 'p', 'n', 'g']
          = ((splitextChars n.data).1 ++ ['.', 'p', 'n']) ++ ['g'] from by simp]
      exact List.rdropWhile_concat_neg _ _ 'g' (by decide)
  have hsplit_r : splitextChars ((splitext n).1 ++ (".png" : String)).data
      = ((splitextChars n.data).1, ['.', 'p', 'n', 'g']) := by
    rw [hrdata]
    exact splitextChars_append_png _ hbn2
  have h2 : (splitext ((splitext n).1 ++ ".png")).2 = (['.', 'p', 'n', 'g'] : List Char).asString := by
    show ((splitextChars ((splitext n).1 ++ (".png" : String)).data).2).asString = _
    rw [hsplit_r]
  have hrne : (splitext n).1 ++ (".png" : String) ≠ "" := by
    intro h
    have hd := congrArg String.data h
    rw [hrdata] at hd
    simp at hd
  simp only [ensure_png_filename]
  rw [hstrip_r, if_neg hrne, h2]
  rw [if_pos (show pyLower (['.', 'p', 'n', 'g'] : List Char).asString ∈ RECOGNIZED_EXTS by decide)]

/-- C10 counterexample: `ensure_png_filename` is not idempotent.  For
`"a/"` the first pass appends `.png` giving `"a/.png"`, but `splitext`
(faithful to CPython) sees no extension in `"a/.png"` — the basename's
only non-final character is a leading dot — so a second pass appends
`.png` again. -/
theorem C10_counterexample :
    ensure_png_filename "a/" = "a/.png" ∧
    ensure_png_filename (ensure_png_filename "a/") = "a/.png.png" ∧
    ("a/.png.png" : String) ≠ "a/.png" := by
  refine ⟨by decide, by decide, by decide⟩

/-- C10 (amended): `ensure_png_filename` is idempotent on every input
whose stripped form is empty or whose final path component contains a
non-dot character (this excludes exactly the pathological names such as
`"a/"` or `"..."` whose first pass yields a `.png` name that `splitext`
still parses as extensionless); in particular empty and whitespace-only
inputs map to the default `OUT_FILE`, which is itself a fixed point. -/
theorem C10_idempotent_amended (s : String)
    (h : pyStrip s = "" ∨ (pyBasenameChars (pyStrip s).data).any (fun a => a ≠ '.') = true) :
    ensure_png_filename (ensure_png_filename s) = ensure_png_filename s ∧
    ensure_png_filename "" = OUT_FILE ∧
    ensure_png_filename " " = OUT_FILE ∧
    ensure_png_filename OUT_FILE = OUT_FILE := by
  refine ⟨?_, by decide, by decide, by decide⟩
  rcases h with hemp | hbn
  · have h1 : ensure_png_filename s = OUT_FILE := by
      simp [ensure_png_filename, hemp]
    rw [h1]
    decide
  · have hfix : pyStrip (pyStrip s) = pyStrip s := pyStrip_idem s
    have hne : pyStrip s ≠ "" := by
      intro h0
      rw [h0] at hbn
      simp [pyBasenameChars, pyRfind] at hbn
    by_cases hrec : pyLower (splitext (pyStrip s)).2 ∈ RECOGNIZED_EXTS
    · have hes : ensure_png_filename s = pyStrip s := by
        simp [ensure_png_filename, hne, hrec]
      rw [hes]
      simp [ensure_png_filename, hfix, hne, hrec]
    · have hes : ensure_png_filename s = (splitext (pyStrip s)).1 ++ ".png" := by
        simp [ensure_png_filename, hne, hrec]
      rw [hes]
      exact ensure_append_png_fix (pyStrip s) hfix hbn

/-- Witness for C10 (amended) at the concrete input `"dir/file.txt"`. -/
theorem C10_idempotent_witness :
    ensure_png_filename (ensure_png_filename "dir/file.txt") = ensure_png_filename "dir/file.txt" ∧
    ensure_png_filename "" = OUT_FILE ∧
    ensure_png_filename " " = OUT_FILE ∧
    ensure_png_filename OUT_FILE = OUT_FILE :=
  C10_idempotent_amended "dir/file.txt" (Or.inr (by decide))
